import Mathlib

/-!
Shallow embedding of the Becs entity-component storage (`src/lib.rs`).

A `World` owns `entities_count` and a list of type-erased component columns
(`component_vecs : Vec<Box<dyn ComponentVec>>`); every column is concretely a
`RefCell<Vec<Option<T>>>` for one component type `T`.  We model the runtime
type identity of `T` (`std::any::TypeId`, used through `Any::downcast`) as a
natural-number tag, the component payload as a natural number (the tag fixes
the actual type, so one carrier suffices), and the `RefCell` borrow flag as an
integer exactly as in `std::cell` (0 = unused, positive = number of
outstanding shared borrows, negative = exclusively borrowed).

A Rust panic (out-of-bounds `Vec` indexing, `RefCell` borrow violation) is
modelled as an explicit failure outcome: `add_component_to_entity` returns
`Except World World` whose `.error` carries the world state at the moment of
the panic, and the borrow entry points return a `BorrowResult` with a
distinguished `panicked` outcome, separate from `noColumn` (Rust's `None`).
-/

/-- Runtime type identity of a component type (`std::any::TypeId`). -/
abbrev TypeTag := Nat

/-- Payload of one component value.  The tag of the enclosing column fixes the
actual Rust type, so a single carrier type suffices for the embedding. -/
abbrev Payload := Nat

/-- One component column: a `RefCell<Vec<Option<T>>>` for the component type
with runtime identity `tag`.  `flag` is the `RefCell` borrow flag
(0 = unused, positive = that many shared borrows, negative = exclusively
borrowed); `data` is the `Vec<Option<T>>`, one optional slot per entity. -/
structure Column where
  tag : TypeTag
  flag : Int
  data : List (Option Payload)
deriving DecidableEq, Repr

/-- `Column::push_none` through the `ComponentVec` trait: `self.get_mut().push(None)`. -/
def Column.push_none (c : Column) : Column :=
  { c with data := c.data ++ [none] }

/-- The `World`: `entities_count: usize` plus the owned columns. -/
structure World where
  entities_count : Nat
  component_vecs : List Column
deriving DecidableEq, Repr

/-- `World::new()`. -/
def World.new : World :=
  { entities_count := 0, component_vecs := [] }

/-- `World::new_entity`: records the current count as the id, pushes one
absent slot onto every existing column, increments the count, returns the id
together with the updated world. -/
def World.new_entity (w : World) : Nat × World :=
  (w.entities_count,
   { entities_count := w.entities_count + 1,
     component_vecs := w.component_vecs.map Column.push_none })

/-- Outcome of the search loop in `add_component_to_entity`:
either the first column whose type matches was updated (`found`), or the
index into that column was out of bounds and `vec[entity] = ...` panicked
before writing (`foundPanic`), or no column matched (`notFound`). -/
inductive AddFind where
  | found (cols : List Column)
  | foundPanic
  | notFound
deriving DecidableEq, Repr

/-- The `for component_vec in self.component_vecs.iter_mut()` loop of
`add_component_to_entity`: the downcast succeeds on the first column whose
type tag matches, and `component_vec.get_mut()[entity] = Some(component)`
either stores the value (index in bounds) or panics before any write. -/
def addFind (tag : TypeTag) (e : Nat) (v : Payload) : List Column → AddFind
  | [] => .notFound
  | c :: rest =>
    if c.tag = tag then
      if e < c.data.length then
        .found ({ c with data := c.data.set e (some v) } :: rest)
      else
        .foundPanic
    else
      match addFind tag e v rest with
      | .found cols => .found (c :: cols)
      | .foundPanic => .foundPanic
      | .notFound => .notFound

/-- `World::add_component_to_entity`.  If a column for the type exists, the
slot for `e` is overwritten in place.  Otherwise a fresh vector of
`entities_count` absent slots is built, slot `e` is set, and the new column is
registered.  A Rust panic (out-of-bounds index in either path) is `.error`
carrying the world at the moment of the panic: no prior mutation has happened,
and in the creation path the partially built column was never registered. -/
def World.add_component_to_entity (w : World) (tag : TypeTag) (e : Nat)
    (v : Payload) : Except World World :=
  match addFind tag e v w.component_vecs with
  | .found cols => .ok { w with component_vecs := cols }
  | .foundPanic => .error w
  | .notFound =>
    let d : List (Option Payload) := List.replicate w.entities_count none
    if e < d.length then
      .ok { w with component_vecs :=
              w.component_vecs ++ [⟨tag, 0, d.set e (some v)⟩] }
    else
      .error w

/-- Outcome of `borrow_component_vec` / `borrow_component_vec_mut`:
`noColumn` is Rust's `None` (no column of that type), `panicked` a `RefCell`
borrow violation, `ok view w` a successful borrow handing out the column
contents with the borrow flag updated in `w`. -/
inductive BorrowResult where
  | noColumn
  | panicked
  | ok (view : List (Option Payload)) (w : World)
deriving DecidableEq, Repr

/-- Same, at the level of the column list. -/
inductive ColsBorrow where
  | noMatch
  | panicked
  | ok (view : List (Option Payload)) (cols : List Column)
deriving DecidableEq, Repr

/-- The scan loop of `borrow_component_vec`: first matching column, then
`RefCell::borrow`, which succeeds iff the flag is not negative (no outstanding
exclusive borrow) and increments it. -/
def sharedLoop (tag : TypeTag) : List Column → ColsBorrow
  | [] => .noMatch
  | c :: rest =>
    if c.tag = tag then
      if 0 ≤ c.flag then
        .ok c.data ({ c with flag := c.flag + 1 } :: rest)
      else
        .panicked
    else
      match sharedLoop tag rest with
      | .ok view cols => .ok view (c :: cols)
      | .panicked => .panicked
      | .noMatch => .noMatch

/-- The scan loop of `borrow_component_vec_mut`: first matching column, then
`RefCell::borrow_mut`, which succeeds iff the flag is exactly 0 (no
outstanding borrow at all) and sets it to −1. -/
def mutLoop (tag : TypeTag) : List Column → ColsBorrow
  | [] => .noMatch
  | c :: rest =>
    if c.tag = tag then
      if c.flag = 0 then
        .ok c.data ({ c with flag := -1 } :: rest)
      else
        .panicked
    else
      match mutLoop tag rest with
      | .ok view cols => .ok view (c :: cols)
      | .panicked => .panicked
      | .noMatch => .noMatch

/-- `World::borrow_component_vec::<T>()`. -/
def World.borrow_component_vec (w : World) (tag : TypeTag) : BorrowResult :=
  match sharedLoop tag w.component_vecs with
  | .noMatch => .noColumn
  | .panicked => .panicked
  | .ok view cols => .ok view { w with component_vecs := cols }

/-- `World::borrow_component_vec_mut::<T>()`. -/
def World.borrow_component_vec_mut (w : World) (tag : TypeTag) : BorrowResult :=
  match mutLoop tag w.component_vecs with
  | .noMatch => .noColumn
  | .panicked => .panicked
  | .ok view cols => .ok view { w with component_vecs := cols }

/-- `n` successive shared borrows of the same column, none released in
between: `n` simultaneous outstanding shared views.  `none` if any of them
fails. -/
def sharedN (tag : TypeTag) : Nat → World → Option World
  | 0, w => some w
  | n + 1, w =>
    match w.borrow_component_vec tag with
    | .ok _ w1 => sharedN tag n w1
    | _ => none

/-- `pub type System = dyn Fn(&mut World)`: a system transforms the world. -/
abbrev System := World → World

/-- `World::update`: `for system in systems { system(self) }`. -/
def World.update (w : World) (systems : List System) : World :=
  systems.foldl (fun acc s => s acc) w

/-- The first column whose type tag matches, the way every scan loop in the
source finds it. -/
def World.findColumn (w : World) (tag : TypeTag) : Option Column :=
  w.component_vecs.find? (fun c => decide (c.tag = tag))

/-- Slot `e` of the column for `tag`: `none` if no such column exists,
`some s` with `s` the optional stored value otherwise. -/
def World.getSlot (w : World) (tag : TypeTag) (e : Nat) : Option (Option Payload) :=
  (w.findColumn tag).bind (fun c => c.data[e]?)

/-- The component of type `tag` attached to entity `e`, if any: presence and
value in one observation. -/
def World.componentOf (w : World) (tag : TypeTag) (e : Nat) : Option Payload :=
  Option.join (w.getSlot tag e)

/-- Worlds reachable from `World::new()` by `new_entity` and successful
`add_component_to_entity` calls. -/
inductive Reachable : World → Prop where
  | new : Reachable World.new
  | newEntity {w : World} : Reachable w → Reachable (w.new_entity).2
  | addComponent {w w' : World} {tag : TypeTag} {e : Nat} {v : Payload} :
      Reachable w → w.add_component_to_entity tag e v = .ok w' → Reachable w'

/-! ### Helper lemmas about the add loop -/

theorem addFind_notFound_iff (tag : TypeTag) (e : Nat) (v : Payload)
    (cols : List Column) :
    addFind tag e v cols = .notFound ↔
      cols.find? (fun c => decide (c.tag = tag)) = none := by
  induction cols with
  | nil => simp [addFind]
  | cons c rest ih =>
    by_cases h : c.tag = tag
    · simp only [addFind, List.find?_cons, h, decide_True, if_pos]
      constructor
      · intro hcontra
        split at hcontra <;> simp_all
      · intro hcontra
        simp at hcontra
    · simp only [addFind, List.find?_cons, h, decide_False, if_neg, not_false_iff]
      rw [← ih]
      cases haf : addFind tag e v rest <;> simp

theorem addFind_found_slot (tag : TypeTag) (e : Nat) (v : Payload)
    (cols cols2 : List Column) (h : addFind tag e v cols = .found cols2) :
    (cols2.find? (fun c => decide (c.tag = tag))).bind (fun c => c.data[e]?)
      = some (some v) := by
  induction cols generalizing cols2 with
  | nil => simp [addFind] at h
  | cons c rest ih =>
    by_cases hc : c.tag = tag
    · simp only [addFind, hc, if_pos] at h
      split at h
      · rename_i hlt
        cases h
        simp [List.find?_cons, hc, List.getElem?_set_self hlt]
      · cases h
    · simp only [addFind, hc, if_neg, not_false_iff] at h
      cases haf : addFind tag e v rest with
      | found cols' =>
        rw [haf] at h
        cases h
        simpa [List.find?_cons, hc] using ih cols' haf
      | foundPanic => rw [haf] at h; cases h
      | notFound => rw [haf] at h; cases h

theorem addFind_found_frame (tag : TypeTag) (e : Nat) (v : Payload)
    (cols cols2 : List Column) (h : addFind tag e v cols = .found cols2)
    (tag2 : TypeTag) (e2 : Nat) (hne : e2 ≠ e) :
    (cols2.find? (fun c => decide (c.tag = tag2))).bind (fun c => c.data[e2]?)
      = (cols.find? (fun c => decide (c.tag = tag2))).bind (fun c => c.data[e2]?) := by
  induction cols generalizing cols2 with
  | nil => simp [addFind] at h
  | cons c rest ih =>
    by_cases hc : c.tag = tag
    · simp only [addFind, hc, if_pos] at h
      split at h
      · cases h
        by_cases hc2 : c.tag = tag2
        · have htt : tag = tag2 := hc.symm.trans hc2
          simp [List.find?_cons, hc2, htt,
            List.getElem?_set_ne (fun hh => hne hh.symm)]
        · have htt : ¬tag = tag2 := fun hh => hc2 (hc.trans hh)
          simp [List.find?_cons, hc2, htt]
      · cases h
    · simp only [addFind, hc, if_neg, not_false_iff] at h
      cases haf : addFind tag e v rest with
      | found cols' =>
        rw [haf] at h
        cases h
        by_cases hc2 : c.tag = tag2
        · simp [List.find?_cons, hc2]
        · simpa [List.find?_cons, hc2] using ih cols' haf
      | foundPanic => rw [haf] at h; cases h
      | notFound => rw [haf] at h; cases h

theorem addFind_found_lengths (tag : TypeTag) (e : Nat) (v : Payload)
    (cols cols2 : List Column) (h : addFind tag e v cols = .found cols2) :
    ∀ c2 ∈ cols2, ∃ c ∈ cols, c2.data.length = c.data.length := by
  induction cols generalizing cols2 with
  | nil => simp [addFind] at h
  | cons c rest ih =>
    by_cases hc : c.tag = tag
    · simp only [addFind, hc, if_pos] at h
      split at h
      · cases h
        intro c2 hc2
        rcases List.mem_cons.mp hc2 with h1 | h1
        · exact ⟨c, List.mem_cons_self c rest, by simp [h1]⟩
        · exact ⟨c2, List.mem_cons_of_mem c h1, rfl⟩
      · cases h
    · simp only [addFind, hc, if_neg, not_false_iff] at h
      cases haf : addFind tag e v rest with
      | found cols' =>
        rw [haf] at h
        cases h
        intro c2 hc2
        rcases List.mem_cons.mp hc2 with h1 | h1
        · exact ⟨c, List.mem_cons_self c rest, by simp [h1]⟩
        · rcases ih cols' haf c2 h1 with ⟨c3, hc3, hlen⟩
          exact ⟨c3, List.mem_cons_of_mem c hc3, hlen⟩
      | foundPanic => rw [haf] at h; cases h
      | notFound => rw [haf] at h; cases h

theorem addFind_found_exists (tag : TypeTag) (e : Nat) (v : Payload)
    (cols : List Column) (c : Column)
    (hfind : cols.find? (fun c => decide (c.tag = tag)) = some c)
    (he : e < c.data.length) :
    ∃ cols2, addFind tag e v cols = .found cols2 := by
  induction cols with
  | nil => simp at hfind
  | cons c0 rest ih =>
    by_cases hc : c0.tag = tag
    · simp only [List.find?_cons, hc, decide_True] at hfind
      cases hfind
      exact ⟨{ c with data := c.data.set e (some v) } :: rest,
        by simp [addFind, hc, he]⟩
    · simp only [List.find?_cons, hc, decide_False] at hfind
      rcases ih hfind with ⟨cols2, hcols2⟩
      exact ⟨c0 :: cols2, by simp [addFind, hc, hcols2]⟩

theorem addFind_found_mem (tag : TypeTag) (e : Nat) (v : Payload)
    (cols cols2 : List Column) (h : addFind tag e v cols = .found cols2) :
    ∃ c ∈ cols, c.tag = tag ∧ e < c.data.length := by
  induction cols generalizing cols2 with
  | nil => simp [addFind] at h
  | cons c rest ih =>
    by_cases hc : c.tag = tag
    · simp only [addFind, hc, if_pos] at h
      split at h
      · exact ⟨c, List.mem_cons_self c rest, hc, by assumption⟩
      · cases h
    · simp only [addFind, hc, if_neg, not_false_iff] at h
      cases haf : addFind tag e v rest with
      | found cols' =>
        rw [haf] at h
        rcases ih cols' haf with ⟨c3, hc3, htag, hlen⟩
        exact ⟨c3, List.mem_cons_of_mem c hc3, htag, hlen⟩
      | foundPanic => rw [haf] at h; cases h
      | notFound => rw [haf] at h; cases h

/-! ### Helper lemmas about the borrow loops -/

theorem sharedLoop_noMatch_iff (tag : TypeTag) (cols : List Column) :
    sharedLoop tag cols = .noMatch ↔
      cols.find? (fun c => decide (c.tag = tag)) = none := by
  induction cols with
  | nil => simp [sharedLoop]
  | cons c rest ih =>
    by_cases h : c.tag = tag
    · simp only [sharedLoop, List.find?_cons, h, decide_True, if_pos]
      constructor
      · intro hcontra
        split at hcontra <;> simp_all
      · intro hcontra
        simp at hcontra
    · simp only [sharedLoop, List.find?_cons, h, decide_False, if_neg, not_false_iff]
      rw [← ih]
      cases hs : sharedLoop tag rest <;> simp

theorem mutLoop_noMatch_iff (tag : TypeTag) (cols : List Column) :
    mutLoop tag cols = .noMatch ↔
      cols.find? (fun c => decide (c.tag = tag)) = none := by
  induction cols with
  | nil => simp [mutLoop]
  | cons c rest ih =>
    by_cases h : c.tag = tag
    · simp only [mutLoop, List.find?_cons, h, decide_True, if_pos]
      constructor
      · intro hcontra
        split at hcontra <;> simp_all
      · intro hcontra
        simp at hcontra
    · simp only [mutLoop, List.find?_cons, h, decide_False, if_neg, not_false_iff]
      rw [← ih]
      cases hs : mutLoop tag rest <;> simp

theorem sharedLoop_ok_of_flag (tag : TypeTag) (cols : List Column) (c : Column)
    (hfind : cols.find? (fun c => decide (c.tag = tag)) = some c)
    (hflag : 0 ≤ c.flag) :
    ∃ cols2, sharedLoop tag cols = .ok c.data cols2 := by
  induction cols with
  | nil => simp at hfind
  | cons c0 rest ih =>
    by_cases h : c0.tag = tag
    · simp only [List.find?_cons, h, decide_True] at hfind
      cases hfind
      exact ⟨{ c with flag := c.flag + 1 } :: rest, by simp [sharedLoop, h, hflag]⟩
    · simp only [List.find?_cons, h, decide_False] at hfind
      rcases ih hfind with ⟨cols2, hcols2⟩
      exact ⟨c0 :: cols2, by simp [sharedLoop, h, hcols2]⟩

theorem mutLoop_ok_of_flag (tag : TypeTag) (cols : List Column) (c : Column)
    (hfind : cols.find? (fun c => decide (c.tag = tag)) = some c)
    (hflag : c.flag = 0) :
    ∃ cols2, mutLoop tag cols = .ok c.data cols2 := by
  induction cols with
  | nil => simp at hfind
  | cons c0 rest ih =>
    by_cases h : c0.tag = tag
    · simp only [List.find?_cons, h, decide_True] at hfind
      cases hfind
      exact ⟨{ c with flag := -1 } :: rest, by simp [mutLoop, h, hflag]⟩
    · simp only [List.find?_cons, h, decide_False] at hfind
      rcases ih hfind with ⟨cols2, hcols2⟩
      exact ⟨c0 :: cols2, by simp [mutLoop, h, hcols2]⟩

theorem mutLoop_ok_mut_panicked (tag : TypeTag) (cols cols2 : List Column)
    (view : List (Option Payload)) (h : mutLoop tag cols = .ok view cols2) :
    mutLoop tag cols2 = .panicked := by
  induction cols generalizing cols2 with
  | nil => simp [mutLoop] at h
  | cons c rest ih =>
    by_cases hc : c.tag = tag
    · simp only [mutLoop, hc, if_pos] at h
      split at h
      · cases h
        simp [mutLoop, hc]
      · cases h
    · simp only [mutLoop, hc, if_neg, not_false_iff] at h
      cases hm : mutLoop tag rest with
      | ok view' cols' =>
        rw [hm] at h
        cases h
        simp [mutLoop, hc, ih cols' hm]
      | panicked => rw [hm] at h; cases h
      | noMatch => rw [hm] at h; cases h

theorem sharedLoop_ok_mut_panicked (tag : TypeTag) (cols cols2 : List Column)
    (view : List (Option Payload)) (h : sharedLoop tag cols = .ok view cols2) :
    mutLoop tag cols2 = .panicked := by
  induction cols generalizing cols2 with
  | nil => simp [sharedLoop] at h
  | cons c rest ih =>
    by_cases hc : c.tag = tag
    · simp only [sharedLoop, hc, if_pos] at h
      split at h
      · rename_i hflag
        cases h
        have hne : ¬(c.flag + 1 = 0) := by omega
        simp [mutLoop, hc, hne]
      · cases h
    · simp only [sharedLoop, hc, if_neg, not_false_iff] at h
      cases hm : sharedLoop tag rest with
      | ok view' cols' =>
        rw [hm] at h
        cases h
        simp [mutLoop, hc, ih cols' hm]
      | panicked => rw [hm] at h; cases h
      | noMatch => rw [hm] at h; cases h

theorem sharedLoop_ok_shared_ok (tag : TypeTag) (cols cols2 : List Column)
    (view : List (Option Payload)) (h : sharedLoop tag cols = .ok view cols2) :
    ∃ cols3, sharedLoop tag cols2 = .ok view cols3 := by
  induction cols generalizing cols2 with
  | nil => simp [sharedLoop] at h
  | cons c rest ih =>
    by_cases hc : c.tag = tag
    · simp only [sharedLoop, hc, if_pos] at h
      split at h
      · rename_i hflag
        cases h
        have hflag2 : (0 : Int) ≤ c.flag + 1 := by omega
        exact ⟨{ c with flag := c.flag + 1 + 1 } :: rest,
          by simp [sharedLoop, hc, hflag2]⟩
      · cases h
    · simp only [sharedLoop, hc, if_neg, not_false_iff] at h
      cases hm : sharedLoop tag rest with
      | ok view' cols' =>
        rw [hm] at h
        cases h
        rcases ih cols' hm with ⟨cols3, hcols3⟩
        exact ⟨c :: cols3, by simp [sharedLoop, hc, hcols3]⟩
      | panicked => rw [hm] at h; cases h
      | noMatch => rw [hm] at h; cases h

/-! ### World-level helper lemmas -/

theorem add_ok_slot (w w' : World) (tag : TypeTag) (e : Nat) (v : Payload)
    (h : w.add_component_to_entity tag e v = .ok w') :
    w'.getSlot tag e = some (some v) := by
  unfold World.add_component_to_entity at h
  cases haf : addFind tag e v w.component_vecs with
  | found cols =>
    rw [haf] at h
    cases h
    simpa [World.getSlot, World.findColumn] using
      addFind_found_slot tag e v w.component_vecs cols haf
  | foundPanic => rw [haf] at h; cases h
  | notFound =>
    rw [haf] at h
    simp only at h
    split at h
    · rename_i he
      cases h
      have hnone : w.component_vecs.find? (fun c => decide (c.tag = tag)) = none :=
        (addFind_notFound_iff tag e v w.component_vecs).mp haf
      simp only [List.length_replicate] at he
      simp [World.getSlot, World.findColumn, List.find?_append, hnone,
        List.find?_cons, List.getElem?_set_self, List.length_replicate, he]
    · cases h

theorem add_found_ok (w : World) (tag : TypeTag) (e : Nat) (v : Payload)
    (c : Column) (hfind : w.findColumn tag = some c) (he : e < c.data.length) :
    ∃ w', w.add_component_to_entity tag e v = .ok w' := by
  rcases addFind_found_exists tag e v w.component_vecs c hfind he with ⟨cols2, h2⟩
  exact ⟨{ w with component_vecs := cols2 },
    by simp [World.add_component_to_entity, h2]⟩

theorem reachable_length {w : World} (hw : Reachable w) :
    ∀ c ∈ w.component_vecs, c.data.length = w.entities_count := by
  induction hw with
  | new => simp [World.new]
  | newEntity hr ih =>
    rename_i w0
    intro c hc
    simp only [World.new_entity, List.mem_map] at hc
    rcases hc with ⟨c0, hc0, rfl⟩
    simp [Column.push_none, ih c0 hc0, World.new_entity]
  | addComponent hr hok ih =>
    rename_i w0 w1 tag e v
    intro c hc
    unfold World.add_component_to_entity at hok
    cases haf : addFind tag e v w0.component_vecs with
    | found cols =>
      rw [haf] at hok
      cases hok
      rcases addFind_found_lengths tag e v w0.component_vecs cols haf c hc
        with ⟨c0, hc0, hlen⟩
      simpa [hlen] using ih c0 hc0
    | foundPanic => rw [haf] at hok; cases hok
    | notFound =>
      rw [haf] at hok
      simp only at hok
      split at hok
      · cases hok
        simp only [List.mem_append, List.mem_singleton] at hc
        rcases hc with hc | rfl
        · exact ih c hc
        · simp
      · cases hok

/-! ### Claim theorems -/

/-- C1: for every sequence of `new_entity` and `add_component_to_entity`
calls starting from `World::new()`, after each call the length of every
component column stored in the World equals `entities_count`. -/
theorem claim_C1_column_length_invariant (w : World) (hw : Reachable w) :
    ∀ c ∈ w.component_vecs, c.data.length = w.entities_count :=
  reachable_length hw

theorem claim_C1_witness :
    (Column.mk 5 0 [some 7]).data.length
      = (World.mk 1 [Column.mk 5 0 [some 7]]).entities_count :=
  claim_C1_column_length_invariant (World.mk 1 [Column.mk 5 0 [some 7]])
    (Reachable.addComponent (Reachable.newEntity Reachable.new)
      (show World.new.new_entity.2.add_component_to_entity 5 0 7
          = Except.ok (World.mk 1 [Column.mk 5 0 [some 7]]) from rfl))
    (Column.mk 5 0 [some 7]) (List.mem_cons_self _ _)

/-- C3: `update` applies each system in the list exactly once, in list order,
each to the world resulting from all earlier systems, so a later system
observes every earlier system's mutations: the empty list is the identity,
a cons runs its head first, appending runs the second list on the first
list's result, and a two-system update is exactly the composition. -/
theorem claim_C3_update_sequencing (w : World) (s s1 s2 : System)
    (ss ts : List System) :
    World.update w [] = w ∧
    World.update w (s :: ss) = World.update (s w) ss ∧
    World.update w (ss ++ ts) = World.update (World.update w ss) ts ∧
    World.update w [s1, s2] = s2 (s1 w) := by
  refine ⟨rfl, rfl, ?_, rfl⟩
  simp [World.update]

/-- C4: `new_entity` never fails (it is total), returns the current
`entities_count` as the new id, increments `entities_count` by one, and
leaves the new entity's slot absent in every existing column. -/
theorem claim_C4_new_entity (w : World)
    (hlen : ∀ c ∈ w.component_vecs, c.data.length = w.entities_count) :
    (w.new_entity).1 = w.entities_count ∧
    (w.new_entity).2.entities_count = w.entities_count + 1 ∧
    ∀ c ∈ (w.new_entity).2.component_vecs,
      c.data.length = w.entities_count + 1 ∧
      c.data[w.entities_count]? = some none := by
  refine ⟨rfl, rfl, ?_⟩
  intro c hc
  simp only [World.new_entity, List.mem_map] at hc
  rcases hc with ⟨c0, hc0, rfl⟩
  have h0 := hlen c0 hc0
  constructor
  · simp [Column.push_none, h0]
  · simp only [Column.push_none]
    rw [← h0]
    exact List.getElem?_concat_length c0.data none

theorem claim_C4_witness :
    (World.mk 1 [Column.mk 5 0 [some 7]]).new_entity.2.entities_count = 2 ∧
    (Column.mk 5 0 [some 7, none]).data[1]? = some none :=
  ⟨(claim_C4_new_entity (World.mk 1 [Column.mk 5 0 [some 7]]) (by decide)).2.1,
   ((claim_C4_new_entity (World.mk 1 [Column.mk 5 0 [some 7]]) (by decide)).2.2
     (Column.mk 5 0 [some 7, none]) (by decide)).2⟩

/-- C9: calling `add_component_to_entity` with `entity ≥ entities_count` is a
fatal out-of-bounds panic (modelled as `.error`, the panic outcome), never a
recoverable value, in both the column-exists and the column-creation path. -/
theorem claim_C9_out_of_range_panics (w : World) (tag : TypeTag) (e : Nat)
    (v : Payload)
    (hlen : ∀ c ∈ w.component_vecs, c.data.length = w.entities_count)
    (he : w.entities_count ≤ e) :
    w.add_component_to_entity tag e v = .error w := by
  unfold World.add_component_to_entity
  cases haf : addFind tag e v w.component_vecs with
  | found cols =>
    rcases addFind_found_mem tag e v w.component_vecs cols haf with ⟨c, hc, -, hlt⟩
    rw [hlen c hc] at hlt
    omega
  | foundPanic => rfl
  | notFound =>
    have hnot : ¬e < (List.replicate w.entities_count (none : Option Payload)).length := by
      simp only [List.length_replicate]
      omega
    simp [hnot, he]

theorem claim_C9_witness :
    (World.mk 1 [Column.mk 5 0 [some 7]]).add_component_to_entity 5 3 9
      = .error (World.mk 1 [Column.mk 5 0 [some 7]]) :=
  claim_C9_out_of_range_panics (World.mk 1 [Column.mk 5 0 [some 7]]) 5 3 9
    (by decide) (by decide)

/-- C10: when `add_component_to_entity` panics on an out-of-range entity, the
observable World state is unchanged: `entities_count` is untouched, no
existing column has been modified, and the partially built column of the
creation path was never registered. -/
theorem claim_C10_panic_preserves_state (w w' : World) (tag : TypeTag)
    (e : Nat) (v : Payload)
    (h : w.add_component_to_entity tag e v = .error w') :
    w'.entities_count = w.entities_count ∧
    w'.component_vecs = w.component_vecs := by
  unfold World.add_component_to_entity at h
  cases haf : addFind tag e v w.component_vecs <;> rw [haf] at h
  · cases h
  · cases h
    exact ⟨rfl, rfl⟩
  · simp only at h
    split at h
    · cases h
    · cases h
      exact ⟨rfl, rfl⟩

theorem claim_C10_witness :
    (World.mk 2 [Column.mk 4 0 [some 1, none]]).entities_count
        = (World.mk 2 [Column.mk 4 0 [some 1, none]]).entities_count ∧
    (World.mk 2 [Column.mk 4 0 [some 1, none]]).component_vecs
        = (World.mk 2 [Column.mk 4 0 [some 1, none]]).component_vecs :=
  claim_C10_panic_preserves_state (World.mk 2 [Column.mk 4 0 [some 1, none]])
    (World.mk 2 [Column.mk 4 0 [some 1, none]]) 4 5 3 rfl

/-- C5: if a column for the component type already exists and the entity is
within range, `add_component_to_entity` succeeds and sets the entity's slot in
that column to the supplied value, overwriting whatever was there, so
attaching twice to the same entity leaves exactly the second value. -/
theorem claim_C5_overwrite (w : World) (tag : TypeTag) (e : Nat)
    (v1 v2 : Payload) (c : Column)
    (hlen : ∀ c0 ∈ w.component_vecs, c0.data.length = w.entities_count)
    (hfind : w.findColumn tag = some c) (he : e < w.entities_count) :
    ∃ w1, w.add_component_to_entity tag e v1 = .ok w1 ∧
      w1.getSlot tag e = some (some v1) ∧
      ∃ w2, w1.add_component_to_entity tag e v2 = .ok w2 ∧
        w2.getSlot tag e = some (some v2) := by
  have hec : e < c.data.length := by
    rw [hlen c (List.mem_of_find?_eq_some hfind)]
    exact he
  rcases add_found_ok w tag e v1 c hfind hec with ⟨w1, h1⟩
  have hs1 := add_ok_slot w w1 tag e v1 h1
  rcases hfc : w1.findColumn tag with _ | c1
  · rw [World.getSlot, hfc] at hs1
    simp at hs1
  · have he1 : e < c1.data.length := by
      rw [World.getSlot, hfc] at hs1
      simp only [Option.some_bind] at hs1
      rcases List.getElem?_eq_some.mp hs1 with ⟨hlt, -⟩
      exact hlt
    rcases add_found_ok w1 tag e v2 c1 hfc he1 with ⟨w2, h2⟩
    exact ⟨w1, h1, hs1, w2, h2, add_ok_slot w1 w2 tag e v2 h2⟩

theorem claim_C5_witness :
    ∃ w1, (World.mk 1 [Column.mk 5 0 [some 7]]).add_component_to_entity 5 0 8
        = .ok w1 ∧
      w1.getSlot 5 0 = some (some 8) ∧
      ∃ w2, w1.add_component_to_entity 5 0 9 = .ok w2 ∧
        w2.getSlot 5 0 = some (some 9) :=
  claim_C5_overwrite (World.mk 1 [Column.mk 5 0 [some 7]]) 5 0 8 9
    (Column.mk 5 0 [some 7]) (by decide) rfl (by decide)

/-- C6: if no column for the component type exists and the entity is within
range, `add_component_to_entity` creates and registers a new column of length
`entities_count` whose slots are all absent except the entity's, which holds
the supplied value. -/
theorem claim_C6_creates_column (w : World) (tag : TypeTag) (e : Nat)
    (v : Payload) (hfind : w.findColumn tag = none)
    (he : e < w.entities_count) :
    ∃ d, w.add_component_to_entity tag e v
        = .ok { w with component_vecs := w.component_vecs ++ [⟨tag, 0, d⟩] } ∧
      d.length = w.entities_count ∧
      d[e]? = some (some v) ∧
      ∀ i, i < w.entities_count → i ≠ e → d[i]? = some none := by
  have haf : addFind tag e v w.component_vecs = .notFound :=
    (addFind_notFound_iff tag e v w.component_vecs).mpr hfind
  refine ⟨(List.replicate w.entities_count none).set e (some v), ?_, ?_, ?_, ?_⟩
  · unfold World.add_component_to_entity
    rw [haf]
    have hlt : e < (List.replicate w.entities_count (none : Option Payload)).length := by
      simpa [List.length_replicate] using he
    simp [hlt, he]
  · simp [List.length_replicate]
  · rw [List.getElem?_set_self (by simpa [List.length_replicate] using he)]
  · intro i hi hne
    rw [List.getElem?_set_ne (fun hh => hne hh.symm)]
    simp [List.getElem?_replicate, hi]

theorem claim_C6_witness :
    ∃ d, (World.mk 2 [Column.mk 4 0 [some 1, none]]).add_component_to_entity 5 1 9
        = .ok { World.mk 2 [Column.mk 4 0 [some 1, none]] with
            component_vecs :=
              (World.mk 2 [Column.mk 4 0 [some 1, none]]).component_vecs
                ++ [⟨5, 0, d⟩] } ∧
      d.length = 2 ∧ d[1]? = some (some 9) ∧
      ∀ i, i < 2 → i ≠ 1 → d[i]? = some none :=
  claim_C6_creates_column (World.mk 2 [Column.mk 4 0 [some 1, none]]) 5 1 9
    rfl (by decide)

/-- C8: attaching a component to entity `e` never changes the presence or
value of any component type for any other entity `e2 ≠ e`, in both the
overwrite path and the column-creation path. -/
theorem claim_C8_cross_entity_isolation (w w' : World) (tag : TypeTag)
    (e : Nat) (v : Payload)
    (h : w.add_component_to_entity tag e v = .ok w') :
    ∀ tag2 e2, e2 ≠ e → w'.componentOf tag2 e2 = w.componentOf tag2 e2 := by
  intro tag2 e2 hne
  unfold World.add_component_to_entity at h
  cases haf : addFind tag e v w.component_vecs with
  | found cols =>
    rw [haf] at h
    cases h
    simp only [World.componentOf, World.getSlot, World.findColumn]
    rw [addFind_found_frame tag e v w.component_vecs cols haf tag2 e2 hne]
  | foundPanic => rw [haf] at h; cases h
  | notFound =>
    rw [haf] at h
    simp only at h
    split at h
    · cases h
      simp only [World.componentOf, World.getSlot, World.findColumn,
        List.find?_append]
      cases hf : w.component_vecs.find? (fun c => decide (c.tag = tag2)) with
      | some c => rfl
      | none =>
        simp only [Option.none_or, Option.none_bind]
        by_cases ht : tag = tag2
        · subst ht
          simp only [List.find?_cons, decide_True, Option.some_bind]
          rw [List.getElem?_set_ne (fun hh => hne hh.symm)]
          rcases Nat.lt_or_ge e2 w.entities_count with h2 | h2
          · simp [List.getElem?_replicate, h2]
          · simp [List.getElem?_replicate, Nat.not_lt.mpr h2]
        · simp [List.find?_cons, ht]
    · cases h

theorem claim_C8_witness :
    (World.mk 2 [Column.mk 5 0 [some 8, some 7]]).componentOf 5 1
      = (World.mk 2 [Column.mk 5 0 [some 1, some 7]]).componentOf 5 1 :=
  claim_C8_cross_entity_isolation (World.mk 2 [Column.mk 5 0 [some 1, some 7]])
    (World.mk 2 [Column.mk 5 0 [some 8, some 7]]) 5 0 8 rfl 5 1 (by decide)

/-! ### Borrow inversion helpers -/

theorem borrow_ok_inv (w : World) (tag : TypeTag)
    (view : List (Option Payload)) (w1 : World)
    (h : w.borrow_component_vec tag = .ok view w1) :
    ∃ cols, sharedLoop tag w.component_vecs = .ok view cols ∧
      w1 = { w with component_vecs := cols } := by
  unfold World.borrow_component_vec at h
  cases hl : sharedLoop tag w.component_vecs <;> rw [hl] at h <;> cases h
  exact ⟨_, rfl, rfl⟩

theorem mut_ok_inv (w : World) (tag : TypeTag)
    (view : List (Option Payload)) (w1 : World)
    (h : w.borrow_component_vec_mut tag = .ok view w1) :
    ∃ cols, mutLoop tag w.component_vecs = .ok view cols ∧
      w1 = { w with component_vecs := cols } := by
  unfold World.borrow_component_vec_mut at h
  cases hl : mutLoop tag w.component_vecs <;> rw [hl] at h <;> cases h
  exact ⟨_, rfl, rfl⟩

theorem sharedN_of_loop_ok (tag : TypeTag) :
    ∀ (n : Nat) (w1 : World),
      (∃ view cols, sharedLoop tag w1.component_vecs = .ok view cols) →
      ∃ w2, sharedN tag n w1 = some w2 := by
  intro n
  induction n with
  | zero =>
    intro w1 _
    exact ⟨w1, rfl⟩
  | succ n ih =>
    rintro w1 ⟨view, cols, hl⟩
    have hb : w1.borrow_component_vec tag
        = .ok view { w1 with component_vecs := cols } := by
      simp [World.borrow_component_vec, hl]
    rcases sharedLoop_ok_shared_ok tag w1.component_vecs cols view hl
      with ⟨cols3, h3⟩
    rcases ih { w1 with component_vecs := cols } ⟨view, cols3, h3⟩
      with ⟨w2, hw2⟩
    exact ⟨w2, by simp [sharedN, hb, hw2]⟩

/-- C2: the per-column borrow discipline: taking an exclusive view while an
exclusive view of the same column is outstanding panics; taking an exclusive
view while a shared view of the same column is outstanding panics; and any
number of simultaneous shared views of the same column all succeed. -/
theorem claim_C2_borrow_exclusivity (w : World) (tag : TypeTag) :
    (∀ view w1, w.borrow_component_vec_mut tag = .ok view w1 →
        w1.borrow_component_vec_mut tag = .panicked) ∧
    (∀ view w1, w.borrow_component_vec tag = .ok view w1 →
        w1.borrow_component_vec_mut tag = .panicked) ∧
    (∀ view w1, w.borrow_component_vec tag = .ok view w1 →
        ∀ n, ∃ w2, sharedN tag n w1 = some w2) := by
  refine ⟨?_, ?_, ?_⟩
  · intro view w1 h
    rcases mut_ok_inv w tag view w1 h with ⟨cols, hl, rfl⟩
    have := mutLoop_ok_mut_panicked tag w.component_vecs cols view hl
    simp [World.borrow_component_vec_mut, this]
  · intro view w1 h
    rcases borrow_ok_inv w tag view w1 h with ⟨cols, hl, rfl⟩
    have := sharedLoop_ok_mut_panicked tag w.component_vecs cols view hl
    simp [World.borrow_component_vec_mut, this]
  · intro view w1 h n
    rcases borrow_ok_inv w tag view w1 h with ⟨cols, hl, rfl⟩
    rcases sharedLoop_ok_shared_ok tag w.component_vecs cols view hl
      with ⟨cols3, h3⟩
    exact sharedN_of_loop_ok tag n { w with component_vecs := cols }
      ⟨view, cols3, h3⟩

theorem claim_C2_witness :
    (World.mk 1 [Column.mk 5 (-1) [some 7]]).borrow_component_vec_mut 5
        = .panicked ∧
    (World.mk 1 [Column.mk 5 1 [some 7]]).borrow_component_vec_mut 5
        = .panicked ∧
    ∃ w2, sharedN 5 3 (World.mk 1 [Column.mk 5 1 [some 7]]) = some w2 :=
  ⟨(claim_C2_borrow_exclusivity (World.mk 1 [Column.mk 5 0 [some 7]]) 5).1
      [some 7] (World.mk 1 [Column.mk 5 (-1) [some 7]]) rfl,
   (claim_C2_borrow_exclusivity (World.mk 1 [Column.mk 5 0 [some 7]]) 5).2.1
      [some 7] (World.mk 1 [Column.mk 5 1 [some 7]]) rfl,
   (claim_C2_borrow_exclusivity (World.mk 1 [Column.mk 5 0 [some 7]]) 5).2.2
      [some 7] (World.mk 1 [Column.mk 5 1 [some 7]]) rfl 3⟩

/-- C7: both borrow entry points report `noColumn` (Rust's `None`) exactly
when no column for the requested type exists; when a column exists and is
unborrowed, both succeed and hand out that column's contents. -/
theorem claim_C7_absent_column (w : World) (tag : TypeTag) :
    (w.borrow_component_vec tag = .noColumn ↔ w.findColumn tag = none) ∧
    (w.borrow_component_vec_mut tag = .noColumn ↔ w.findColumn tag = none) ∧
    (∀ c, w.findColumn tag = some c → c.flag = 0 →
      (∃ w1, w.borrow_component_vec tag = .ok c.data w1) ∧
      (∃ w1, w.borrow_component_vec_mut tag = .ok c.data w1)) := by
  refine ⟨?_, ?_, ?_⟩
  · unfold World.borrow_component_vec World.findColumn
    rw [← sharedLoop_noMatch_iff tag w.component_vecs]
    cases hl : sharedLoop tag w.component_vecs <;> simp [hl]
  · unfold World.borrow_component_vec_mut World.findColumn
    rw [← mutLoop_noMatch_iff tag w.component_vecs]
    cases hl : mutLoop tag w.component_vecs <;> simp [hl]
  · intro c hfind hflag
    constructor
    · rcases sharedLoop_ok_of_flag tag w.component_vecs c hfind
        (le_of_eq hflag.symm) with ⟨cols2, h2⟩
      exact ⟨{ w with component_vecs := cols2 },
        by simp [World.borrow_component_vec, h2]⟩
    · rcases mutLoop_ok_of_flag tag w.component_vecs c hfind hflag
        with ⟨cols2, h2⟩
      exact ⟨{ w with component_vecs := cols2 },
        by simp [World.borrow_component_vec_mut, h2]⟩

theorem claim_C7_witness :
    ((World.mk 1 [Column.mk 5 0 [some 7]]).borrow_component_vec 4 = .noColumn
        ↔ (World.mk 1 [Column.mk 5 0 [some 7]]).findColumn 4 = none) ∧
    (∃ w1, (World.mk 1 [Column.mk 5 0 [some 7]]).borrow_component_vec_mut 5
        = .ok [some 7] w1) :=
  ⟨(claim_C7_absent_column (World.mk 1 [Column.mk 5 0 [some 7]]) 4).1,
   ((claim_C7_absent_column (World.mk 1 [Column.mk 5 0 [some 7]]) 5).2.2
      (Column.mk 5 0 [some 7]) rfl rfl).2⟩
